import Mathlib

/-!
Verification of the extraction-schema interpreter and result-processing code
of the `scrape` repository (Amazon product scraping example scripts).

The repository's scripts declare extraction schemas (a base selector plus a
list of field specifications) and post-process the JSON result set returned
by the crawl.  The declarative extraction-schema interpreter itself lives in
the external crawling library; following the specification's component design
(section 4.1) it is modelled here from the spec's words.  The JSON consumer
code (`src/main.py`, `src/main1.py`, `src/main2.py` result loops) and the LLM
post-processing code (`src/llm1.py`) are embedded from the source directly.

CSS selector evaluation and visible-text computation are external
collaborators (browser / DOM engine); they are abstracted as a matching
oracle `Matcher` and a per-node `text` field.
-/

set_option maxHeartbeats 1000000

/-- A DOM-like element node: attributes, visible text (as computed by the
browser collaborator), and child elements in document order. -/
inductive Node where
  | mk (attrs : List (String × String)) (text : String) (children : List Node)
deriving Repr

def Node.attrs : Node → List (String × String)
  | .mk a _ _ => a

def Node.text : Node → String
  | .mk _ t _ => t

def Node.children : Node → List Node
  | .mk _ _ c => c

mutual

/-- All proper descendants of a node, in document (preorder) order. -/
def Node.descendants : Node → List Node
  | .mk _ _ cs => Node.descList cs

/-- Preorder listing of a forest: each root followed by its descendants. -/
def Node.descList : List Node → List Node
  | [] => []
  | c :: cs => c :: Node.descendants c ++ Node.descList cs

end

/-- All nodes of a document, root included, in document (preorder) order. -/
def Node.allNodes (root : Node) : List Node :=
  root :: root.descendants

/-- A CSS-selector matching oracle: the browser-side selector engine is an
external collaborator, so selector semantics is abstracted as a function
from selector string and element to a match verdict. -/
def Matcher : Type := String → Node → Bool

/-- Field extraction type: `text`, `attribute` or `exists`
(the schema's `"type"` key). -/
inductive FieldType where
  | text
  | attr
  | exists_
deriving DecidableEq, Repr

/-- Modelled from the spec: a FieldSpec
`{ name, selector (empty means self), type, attribute (required iff
type=attribute), multiple (default false) }`. -/
structure FieldSpec where
  name : String
  selector : String
  ftype : FieldType
  attrName : Option String := none
  multiple : Bool := false
deriving DecidableEq, Repr

/-- Modelled from the spec: a Schema
`{ name, baseSelector, fields : ordered sequence of FieldSpec }`. -/
structure Schema where
  name : String
  baseSelector : String
  fields : List FieldSpec
deriving DecidableEq, Repr

/-- A scalar extracted value: a string, a boolean (for `exists`), or the
null placeholder of a missing attribute / missing match. -/
inductive Scalar where
  | s (v : String)
  | b (v : Bool)
  | null
deriving DecidableEq, Repr

/-- A Record field value: a scalar, or (for `multiple=true`) an ordered
sequence of scalars. -/
inductive FieldValue where
  | scalar (v : Scalar)
  | list (vs : List Scalar)
deriving DecidableEq, Repr

/-- A Record: mapping from field name to extracted value, in declared field
order. -/
abbrev Record := List (String × FieldValue)

/-- Modelled from the spec: resolve the target element set of a field —
"if `selector` is empty, target = [base element]; else target = elements
matching `selector` within the base element's subtree, document order". -/
def resolveTargets (m : Matcher) (base : Node) (sel : String) : List Node :=
  if sel = "" then [base]
  else base.descendants.filter (m sel)

/-- The named attribute's string value on an element, or null when the
attribute is absent. -/
def attrScalar (e : Node) (a : String) : Scalar :=
  match e.attrs.lookup a with
  | some v => .s v
  | none => .null

/-- Remove leading and trailing whitespace from a string. -/
def strTrim (s : String) : String :=
  String.mk (((s.data.dropWhile Char.isWhitespace).reverse.dropWhile
    Char.isWhitespace).reverse)

/-- The trimmed visible text of an element. -/
def textScalar (e : Node) : Scalar :=
  .s (strTrim e.text)

/-- Modelled from the spec: apply a FieldSpec to a base element —
`exists` is true iff at least one target element matched (independent of
`multiple`); `multiple=true` with `text`/`attribute` yields the ordered
sequence of per-target values; otherwise only the first target is used,
with empty string (missing text) or null (missing attribute) placeholders. -/
def extractField (m : Matcher) (base : Node) (f : FieldSpec) : FieldValue :=
  let targets := resolveTargets m base f.selector
  match f.ftype with
  | .exists_ => .scalar (.b (!targets.isEmpty))
  | .text =>
      if f.multiple then .list (targets.map textScalar)
      else
        match targets.head? with
        | some e => .scalar (textScalar e)
        | none => .scalar (.s "")
  | .attr =>
      let a := f.attrName.getD ""
      if f.multiple then .list (targets.map (fun e => attrScalar e a))
      else
        match targets.head? with
        | some e => .scalar (attrScalar e a)
        | none => .scalar .null

/-- Modelled from the spec: produce one Record for a base element, with all
field values keyed by field name, in declared field order. -/
def extractRecord (m : Matcher) (s : Schema) (base : Node) : Record :=
  s.fields.map (fun f => (f.name, extractField m base f))

/-- True when an attribute-type field lacks a non-empty attribute name. -/
def fieldConfigBad (f : FieldSpec) : Bool :=
  f.ftype = .attr && f.attrName.getD "" = ""

/-- Modelled from the spec: schema validation — duplicate field names or an
attribute-type field with no non-empty attribute name are configuration
errors, reported before extraction begins. -/
def validateSchema (s : Schema) : Option String :=
  if ¬ (s.fields.map FieldSpec.name).Nodup then
    some "duplicate field name"
  else if s.fields.any fieldConfigBad then
    some "attribute-type field with no attribute name"
  else
    none

/-- The base elements of a document under a schema: all elements matching
`baseSelector`, in document order. -/
def baseElems (m : Matcher) (root : Node) (s : Schema) : List Node :=
  root.allNodes.filter (m s.baseSelector)

/-- Modelled from the spec: `extract(domRoot, schema) -> ResultSet` —
validation errors are reported before any extraction; otherwise one Record
per base element, in document order. -/
def extract (m : Matcher) (root : Node) (s : Schema) :
    Except String (List Record) :=
  match validateSchema s with
  | some e => .error e
  | none => .ok ((baseElems m root s).map (extractRecord m s))

/-- The claim's notion of a malformed schema: a duplicate field name, or an
attribute-type field with no non-empty attribute name. -/
def malformedSchema (s : Schema) : Prop :=
  ¬ (s.fields.map FieldSpec.name).Nodup ∨
    ∃ f ∈ s.fields, f.ftype = .attr ∧ (f.attrName = none ∨ f.attrName = some "")

/-- Python `dict.get`: the value under a key, or `None` when absent
(`product.get(...)` in the result loops of `src/main.py`, `src/main1.py`,
`src/main2.py`). -/
def pyGet (r : Record) (k : String) : Option FieldValue :=
  r.lookup k

/-- Python truthiness of a possibly-missing field value: `None`, `False`,
the empty string and the empty list are falsy; everything else is truthy. -/
def truthy : Option FieldValue → Bool
  | none => false
  | some (.scalar .null) => false
  | some (.scalar (.b v)) => v
  | some (.scalar (.s v)) => v ≠ ""
  | some (.list vs) => !vs.isEmpty

/-- Python `str` of a scalar extracted value (`f"{...}"` interpolation). -/
def pyScalarStr : Scalar → String
  | .s v => v
  | .b true => "True"
  | .b false => "False"
  | .null => "None"

/-- Python `repr` of a scalar, as used inside `str` of a list. -/
def pyScalarRepr : Scalar → String
  | .s v => "'" ++ v ++ "'"
  | .b true => "True"
  | .b false => "False"
  | .null => "None"

/-- Python `str` of a possibly-missing field value, as interpolated by the
`print(f"...{product.get(...)}")` lines. -/
def pyStr : Option FieldValue → String
  | none => "None"
  | some (.scalar v) => pyScalarStr v
  | some (.list vs) =>
      "[" ++ String.intercalate ", " (vs.map pyScalarRepr) ++ "]"

/-- `src/main.py` line 113 (same in `src/main1.py` line 138 and
`src/main2.py` line 118):
`f"Sponsored: {'Yes' if product.get('sponsored') else 'No'}"`. -/
def sponsoredLine (p : Record) : String :=
  "Sponsored: " ++ (if truthy (pyGet p "sponsored") then "Yes" else "No")

/-- `' '.join(product['delivery_info'])` (`src/main.py` line 115). -/
def deliveryJoin : FieldValue → String
  | .scalar v => pyScalarStr v
  | .list vs => String.intercalate " " (vs.map pyScalarStr)

/-- The lines printed for one product by the result loop of `src/main.py`
lines 105-116 (the loops of `src/main1.py` and `src/main2.py` are
identical). -/
def productLines (p : Record) : List String :=
  ["\nProduct Details:",
   "ASIN: " ++ pyStr (pyGet p "asin"),
   "Title: " ++ pyStr (pyGet p "title"),
   "Price: " ++ pyStr (pyGet p "price"),
   "Original Price: " ++ pyStr (pyGet p "original_price"),
   "Rating: " ++ pyStr (pyGet p "rating"),
   "Reviews: " ++ pyStr (pyGet p "reviews_count"),
   sponsoredLine p] ++
  (match pyGet p "delivery_info" with
   | some v => if truthy (some v) then ["Delivery: " ++ deliveryJoin v] else []
   | none => []) ++
  [String.mk (List.replicate 80 '-')]

/-- The crawl result object as seen by the consumer scripts:
`extracted_content` is a JSON string or `None`. -/
structure CrawlResult where
  extracted_content : Option String

/-- Python truthiness of `result.extracted_content`. -/
def contentTruthy : Option String → Bool
  | none => false
  | some c => c ≠ ""

/-- `src/main.py` lines 100-116: the consumer checks
`if result and result.extracted_content:` before calling `json.loads` and
printing product details.  `parse` stands for `json.loads` on the extracted
JSON string; a `none` overall result models an uncaught exception, and
`some lines` models a normal return printing `lines`. -/
def processResult (r : Option CrawlResult) (parse : String → Option (List Record)) :
    Option (List String) :=
  match r with
  | none => some []
  | some cr =>
      match cr.extracted_content with
      | none => some []
      | some c =>
          if c = "" then some []
          else
            match parse c with
            | some products => some (products.flatMap productLines)
            | none => none

/-- The error write of `src/llm1.py` line 70:
`f"\n!!! JSON Parsing Error: {e} !!!\n"`. -/
def jsonErrorWrite (e : String) : String :=
  "\n!!! JSON Parsing Error: " ++ e ++ " !!!\n"

/-- `src/llm1.py` lines 34-73: the sequence of `output.write` calls of
`extract_structured_data_using_llm`, as a function of the provider name, the
extracted content, the result of `json.loads` (modelled as
`parsed = some prettyPrinted` on success, `none` when `json.JSONDecodeError`
is raised) and the decode-error message.  The function's return value is the
concatenation of these writes. -/
def llmWrites (provider content : String) (parsed : Option String)
    (errMsg : String) : List String :=
  ["\n--- Extracting Structured Data with " ++ provider ++ " ---\n",
   "Extraction strategy initialized\n",
   "\n=== Raw Extracted Content ===\n",
   content ++ "\n"] ++
  (if content = "" then []
   else
     match parsed with
     | some pp => ["\n=== Parsed Extracted Data ===\n", pp ++ "\n"]
     | none => [jsonErrorWrite errMsg,
                "\n--- Check the extracted content manually ---\n"])

/-- The string returned by `extract_structured_data_using_llm`
(`output.getvalue()`, `src/llm1.py` line 73). -/
def llmOutput (provider content : String) (parsed : Option String)
    (errMsg : String) : String :=
  String.join (llmWrites provider content parsed errMsg)

/-- A sequence of writes surfaces the JSON parse failure when one of them is
the decode-error report line (a write starting with the
`!!! JSON Parsing Error: ` marker after its leading newline). -/
def reportsParseError (ws : List String) : Prop :=
  ∃ w ∈ ws, ∃ tail, w.data = ("\n!!! JSON Parsing Error: ").data ++ tail

/-- The `{` character (written via its code point to keep string literals
plain). -/
def openBraceChar : Char := Char.ofNat 123

/-- The `}` character. -/
def closeBraceChar : Char := Char.ofNat 125

/-- JSON string escaping of one character (backslash, quote and the common
control characters). -/
def escChar (c : Char) : List Char :=
  if c = '\\' then ['\\', '\\']
  else if c = '"' then ['\\', '"']
  else if c = '\n' then ['\\', 'n']
  else if c = '\t' then ['\\', 't']
  else if c = '\r' then ['\\', 'r']
  else [c]

/-- JSON string escaping of a character sequence. -/
def escapeChars (cs : List Char) : List Char :=
  cs.flatMap escChar

/-- Render a JSON string literal. -/
def renderString (s : String) : List Char :=
  '"' :: escapeChars s.data ++ ['"']

/-- Render a scalar extracted value as a JSON value. -/
def renderScalar : Scalar → List Char
  | .s v => renderString v
  | .b true => ['t', 'r', 'u', 'e']
  | .b false => ['f', 'a', 'l', 's', 'e']
  | .null => ['n', 'u', 'l', 'l']

/-- The tail of a comma-separated sequence: a comma before every element. -/
def sepTail (rs : List (List Char)) : List Char :=
  rs.flatMap (fun x => ',' :: x)

/-- Comma-separated concatenation. -/
def commaSep : List (List Char) → List Char
  | [] => []
  | x :: xs => x ++ sepTail xs

/-- Render a Record field value as a JSON value (scalar, or array of
scalars for `multiple=true` fields). -/
def renderFieldValue : FieldValue → List Char
  | .scalar v => renderScalar v
  | .list vs => '[' :: commaSep (vs.map renderScalar) ++ [']']

/-- Render one Record field as a JSON object member. -/
def renderField (p : String × FieldValue) : List Char :=
  renderString p.1 ++ ':' :: renderFieldValue p.2

/-- Render a Record as a JSON object. -/
def renderRecord (r : Record) : List Char :=
  openBraceChar :: commaSep (r.map renderField) ++ [closeBraceChar]

/-- Serialize a ResultSet to a JSON array of objects (the form in which the
extraction result reaches `result.extracted_content`). -/
def renderResultSet (rs : List Record) : List Char :=
  '[' :: commaSep (rs.map renderRecord) ++ [']']

/-- Inverse of `escChar` for the character following a backslash. -/
def unescChar (c : Char) : Option Char :=
  if c = '\\' then some '\\'
  else if c = '"' then some '"'
  else if c = 'n' then some '\n'
  else if c = 't' then some '\t'
  else if c = 'r' then some '\r'
  else none

/-- Parse the body of a JSON string literal (after the opening quote),
returning the unescaped characters and the input after the closing quote. -/
def parseStrBody : List Char → Option (List Char × List Char)
  | [] => none
  | c :: cs =>
      if c = '"' then some ([], cs)
      else if c = '\\' then
        match cs with
        | [] => none
        | e :: cs2 =>
            match unescChar e, parseStrBody cs2 with
            | some d, some (s, r) => some (d :: s, r)
            | _, _ => none
      else
        match parseStrBody cs with
        | some (s, r) => some (c :: s, r)
        | none => none

theorem parseStrBody_length :
    ∀ cs s r, parseStrBody cs = some (s, r) → r.length < cs.length := by
  intro cs
  induction cs using parseStrBody.induct with
  | case1 => intro s r h; rw [parseStrBody.eq_def] at h; simp at h
  | case2 cs2 =>
      intro s r h
      rw [parseStrBody.eq_def] at h
      simp at h
      rcases h with ⟨rfl, rfl⟩
      simp
  | case3 h1 => intro s r h; rw [parseStrBody.eq_def] at h; simp at h
  | case4 e cs2 d s0 r0 hp hu hne ih =>
      intro s r h
      rw [parseStrBody.eq_def] at h
      simp [hu, hp] at h
      rcases h with ⟨rfl, rfl⟩
      have := ih s0 r0 hp
      simp only [List.length_cons]
      omega
  | case5 e cs2 hfail hne ih =>
      intro s r h
      cases hu : unescChar e with
      | none => rw [parseStrBody.eq_def] at h; simp [hu] at h
      | some d =>
          cases hp : parseStrBody cs2 with
          | none => rw [parseStrBody.eq_def] at h; simp [hu, hp] at h
          | some pr =>
              exact ((hfail d pr.1 pr.2 hu (hp.trans (by rfl))).elim)
  | case6 e cs2 hq hb s0 r0 hp ih =>
      intro s r h
      rw [parseStrBody.eq_def] at h
      simp [hq, hb, hp] at h
      rcases h with ⟨rfl, rfl⟩
      have := ih s0 r0 hp
      simp only [List.length_cons]
      omega
  | case7 e cs2 hq hb hp ih =>
      intro s r h
      rw [parseStrBody.eq_def] at h
      simp [hq, hb, hp] at h

def parseScalar (cs : List Char) : Option (Scalar × List Char) :=
  match cs with
  | '"' :: rest =>
      match parseStrBody rest with
      | some (s, r) => some (.s (String.mk s), r)
      | none => none
  | 'n' :: 'u' :: 'l' :: 'l' :: rest => some (.null, rest)
  | 't' :: 'r' :: 'u' :: 'e' :: rest => some (.b true, rest)
  | 'f' :: 'a' :: 'l' :: 's' :: 'e' :: rest => some (.b false, rest)
  | _ => none

theorem parseScalar_length :
    ∀ cs v r, parseScalar cs = some (v, r) → r.length < cs.length := by
  intro cs v r h
  rw [parseScalar.eq_def] at h
  split at h
  · rename_i rest
    split at h
    · rename_i s r0 hp
      simp at h
      rcases h with ⟨rfl, rfl⟩
      have := parseStrBody_length rest s r0 hp
      simp only [List.length_cons]
      omega
    · simp at h
  · simp at h
    rcases h with ⟨rfl, rfl⟩
    simp only [List.length_cons]
    omega
  · simp at h
    rcases h with ⟨rfl, rfl⟩
    simp only [List.length_cons]
    omega
  · simp at h
    rcases h with ⟨rfl, rfl⟩
    simp only [List.length_cons]
    omega
  · simp at h

def parseSepRest {α : Type} (item : List Char → Option (α × List Char))
    (hitem : ∀ cs v r, item cs = some (v, r) → r.length < cs.length)
    (close : Char) (cs : List Char) : Option (List α × List Char) :=
  match cs with
  | [] => none
  | c :: rest =>
      if c = close then some ([], rest)
      else if c = ',' then
        match h : item rest with
        | some (v, r) =>
            match parseSepRest item hitem close r with
            | some (vs, r2) => some (v :: vs, r2)
            | none => none
        | none => none
      else none
termination_by cs.length
decreasing_by
  have hlt := hitem _ _ _ h
  simp only [List.length_cons]
  omega

theorem parseSepRest_length {α : Type}
    (item : List Char → Option (α × List Char))
    (hitem : ∀ cs v r, item cs = some (v, r) → r.length < cs.length)
    (close : Char) :
    ∀ cs vs r, parseSepRest item hitem close cs = some (vs, r) →
      r.length < cs.length := by
  intro cs
  induction cs using parseSepRest.induct item hitem close with
  | case1 =>
      intro vs r h
      rw [parseSepRest.eq_def] at h
      simp at h
  | case2 cs2 =>
      intro vs r h
      rw [parseSepRest.eq_def] at h
      simp at h
      rcases h with ⟨rfl, rfl⟩
      simp
  | case3 cs2 v r hit vs2 r2 hrec hne ih =>
      intro vs0 r0 h
      rw [parseSepRest.eq_def] at h
      simp only [if_neg hne, eq_self_iff_true, if_true] at h
      split at h
      · rename_i v1 r1 heq1
        rw [hit] at heq1
        obtain ⟨rfl, rfl⟩ : v = v1 ∧ r = r1 := by simpa using heq1
        split at h
        · rename_i vs1 r21 heq2
          rw [hrec] at heq2
          obtain ⟨rfl, rfl⟩ : vs2 = vs1 ∧ r2 = r21 := by simpa using heq2
          obtain ⟨rfl, rfl⟩ : v :: vs2 = vs0 ∧ r2 = r0 := by simpa using h
          have h1 := hitem cs2 v r hit
          have h2 := ih vs2 r2 hrec
          simp only [List.length_cons]
          omega
        · exact absurd h (by simp)
      · rename_i heq1
        rw [hit] at heq1
        exact absurd heq1 (by simp)
  | case4 cs2 v r hit hrec hne ih =>
      intro vs0 r0 h
      rw [parseSepRest.eq_def] at h
      simp only [if_neg hne, eq_self_iff_true, if_true] at h
      split at h
      · rename_i v1 r1 heq1
        rw [hit] at heq1
        obtain ⟨rfl, rfl⟩ : v = v1 ∧ r = r1 := by simpa using heq1
        split at h
        · rename_i vs1 r21 heq2
          rw [hrec] at heq2
          exact absurd heq2 (by simp)
        · exact absurd h (by simp)
      · rename_i heq1
        rw [hit] at heq1
        exact absurd heq1 (by simp)
  | case5 cs2 hit hne =>
      intro vs0 r0 h
      rw [parseSepRest.eq_def] at h
      simp only [if_neg hne, eq_self_iff_true, if_true] at h
      split at h
      · rename_i v1 r1 heq1
        rw [hit] at heq1
        exact absurd heq1 (by simp)
      · exact absurd h (by simp)
  | case6 e cs2 hne1 hne2 =>
      intro vs0 r0 h
      rw [parseSepRest.eq_def] at h
      simp [hne1, hne2] at h

def parseSepList {α : Type} (item : List Char → Option (α × List Char))
    (hitem : ∀ cs v r, item cs = some (v, r) → r.length < cs.length)
    (close : Char) (cs : List Char) : Option (List α × List Char) :=
  match cs with
  | [] => none
  | c :: _rest =>
      if c = close then some ([], _rest)
      else
        match item cs with
        | some (v, r) =>
            match parseSepRest item hitem close r with
            | some (vs, r2) => some (v :: vs, r2)
            | none => none
        | none => none

theorem parseSepList_length {α : Type}
    (item : List Char → Option (α × List Char))
    (hitem : ∀ cs v r, item cs = some (v, r) → r.length < cs.length)
    (close : Char) :
    ∀ cs vs r, parseSepList item hitem close cs = some (vs, r) →
      r.length < cs.length := by
  intro cs vs r h
  rw [parseSepList.eq_def] at h
  split at h
  · simp at h
  · rename_i c rest
    split at h
    · simp at h
      rcases h with ⟨rfl, rfl⟩
      simp
    · split at h
      · rename_i v r1 hp
        split at h
        · rename_i vs1 r2 hrest
          simp at h
          rcases h with ⟨rfl, rfl⟩
          have h1 := hitem _ _ _ hp
          have h2 := parseSepRest_length item hitem close _ _ _ hrest
          omega
        · simp at h
      · simp at h

def parseFieldValue (cs : List Char) : Option (FieldValue × List Char) :=
  match cs with
  | '[' :: rest =>
      match parseSepList parseScalar parseScalar_length ']' rest with
      | some (vs, r) => some (.list vs, r)
      | none => none
  | _ =>
      match parseScalar cs with
      | some (v, r) => some (.scalar v, r)
      | none => none

theorem parseFieldValue_length :
    ∀ cs v r, parseFieldValue cs = some (v, r) → r.length < cs.length := by
  intro cs v r h
  rw [parseFieldValue.eq_def] at h
  split at h
  · rename_i rest
    split at h
    · rename_i vs r1 hp
      simp at h
      rcases h with ⟨rfl, rfl⟩
      have := parseSepList_length parseScalar parseScalar_length ']' _ _ _ hp
      simp only [List.length_cons]
      omega
    · simp at h
  · split at h
    · rename_i v1 r1 hp
      simp at h
      rcases h with ⟨rfl, rfl⟩
      exact parseScalar_length _ _ _ hp
    · simp at h

def parseField (cs : List Char) : Option ((String × FieldValue) × List Char) :=
  match cs with
  | '"' :: rest =>
      match parseStrBody rest with
      | some (name, r) =>
          match r with
          | ':' :: r2 =>
              match parseFieldValue r2 with
              | some (v, r3) => some ((String.mk name, v), r3)
              | none => none
          | _ => none
      | none => none
  | _ => none

theorem parseField_length :
    ∀ cs f r, parseField cs = some (f, r) → r.length < cs.length := by
  intro cs f r h
  rw [parseField.eq_def] at h
  split at h
  · rename_i rest
    split at h
    · rename_i name r1 hs
      split at h
      · rename_i r2
        split at h
        · rename_i v r3 hv
          simp at h
          rcases h with ⟨rfl, rfl⟩
          have h1 := parseStrBody_length rest name (':' :: r2) hs
          have h2 := parseFieldValue_length r2 v r3 hv
          simp only [List.length_cons] at h1 ⊢
          omega
        · simp at h
      · simp at h
    · simp at h
  · simp at h

def parseRecord (cs : List Char) : Option (Record × List Char) :=
  match cs with
  | [] => none
  | c :: rest =>
      if c = openBraceChar then
        parseSepList parseField parseField_length closeBraceChar rest
      else none

theorem parseRecord_length :
    ∀ cs rec r, parseRecord cs = some (rec, r) → r.length < cs.length := by
  intro cs rec r h
  rw [parseRecord.eq_def] at h
  split at h
  · simp at h
  · rename_i c rest
    split at h
    · have := parseSepList_length parseField parseField_length closeBraceChar rest rec r h
      simp only [List.length_cons]
      omega
    · simp at h

/-- Parse a full JSON array of Records, requiring the whole input to be
consumed (the behaviour of `json.loads` on a complete document). -/
def parseResultSet (cs : List Char) : Option (List Record) :=
  match cs with
  | '[' :: rest =>
      match parseSepList parseRecord parseRecord_length ']' rest with
      | some (recs, r) => if r = [] then some recs else none
      | none => none
  | _ => none

theorem parseStrBody_escape (s rest : List Char) :
    parseStrBody (escapeChars s ++ '"' :: rest) = some (s, rest) := by
  induction s with
  | nil =>
      rw [parseStrBody.eq_def]
      simp [escapeChars]
  | cons c cs ih =>
      have hstep : escapeChars (c :: cs) = escChar c ++ escapeChars cs := by
        simp [escapeChars]
      rw [hstep]
      by_cases h1 : c = '\\'
      · subst h1
        rw [escChar, if_pos rfl]
        simp only [List.cons_append, List.append_assoc]
        rw [parseStrBody.eq_def]
        simp [unescChar, ih]
      · by_cases h2 : c = '"'
        · subst h2
          rw [escChar]
          simp only [if_neg (show ¬('"' : Char) = '\\' by decide), if_pos rfl]
          simp only [List.cons_append, List.append_assoc]
          rw [parseStrBody.eq_def]
          simp [unescChar, ih]
        · by_cases h3 : c = '\n'
          · subst h3
            rw [escChar]
            simp only [if_neg (show ¬('\n' : Char) = '\\' by decide),
              if_neg (show ¬('\n' : Char) = '"' by decide), if_pos rfl]
            simp only [List.cons_append, List.append_assoc]
            rw [parseStrBody.eq_def]
            simp [unescChar, ih]
          · by_cases h4 : c = '\t'
            · subst h4
              rw [escChar]
              simp only [if_neg (show ¬('\t' : Char) = '\\' by decide),
                if_neg (show ¬('\t' : Char) = '"' by decide),
                if_neg (show ¬('\t' : Char) = '\n' by decide), if_pos rfl]
              simp only [List.cons_append, List.append_assoc]
              rw [parseStrBody.eq_def]
              simp [unescChar, ih]
            · by_cases h5 : c = '\r'
              · subst h5
                rw [escChar]
                simp only [if_neg (show ¬('\r' : Char) = '\\' by decide),
                  if_neg (show ¬('\r' : Char) = '"' by decide),
                  if_neg (show ¬('\r' : Char) = '\n' by decide),
                  if_neg (show ¬('\r' : Char) = '\t' by decide), if_pos rfl]
                simp only [List.cons_append, List.append_assoc]
                rw [parseStrBody.eq_def]
                simp [unescChar, ih]
              · rw [escChar]
                simp only [if_neg h1, if_neg h2, if_neg h3, if_neg h4, if_neg h5]
                simp only [List.cons_append, List.append_assoc, List.nil_append]
                rw [parseStrBody.eq_def]
                simp [h1, h2, ih]

theorem stringMk_data (s : String) : String.mk s.data = s := rfl

theorem parseScalar_render (v : Scalar) (rest : List Char) :
    parseScalar (renderScalar v ++ rest) = some (v, rest) := by
  cases v with
  | s str =>
      show parseScalar (('"' :: escapeChars str.data ++ ['"']) ++ rest) = _
      have harr : ('"' :: escapeChars str.data ++ ['"']) ++ rest =
          '"' :: (escapeChars str.data ++ '"' :: rest) := by
        simp
      rw [harr, parseScalar.eq_def]
      simp [parseStrBody_escape, stringMk_data]
  | b bv =>
      cases bv with
      | true => rw [parseScalar.eq_def]; rfl
      | false => rw [parseScalar.eq_def]; rfl
  | null => rw [parseScalar.eq_def]; rfl

theorem parseSepRest_render {α : Type}
    (item : List Char → Option (α × List Char))
    (hitem : ∀ cs v r, item cs = some (v, r) → r.length < cs.length)
    (close : Char) (renderItem : α → List Char)
    (hround : ∀ v rest, item (renderItem v ++ rest) = some (v, rest))
    (hclose : ¬(',' : Char) = close) :
    ∀ vs rest,
      parseSepRest item hitem close (sepTail (vs.map renderItem) ++ close :: rest) =
        some (vs, rest) := by
  intro vs
  induction vs with
  | nil =>
      intro rest
      rw [parseSepRest.eq_def]
      simp [sepTail]
  | cons v vs ih =>
      intro rest
      have hshape : sepTail ((v :: vs).map renderItem) ++ close :: rest =
          ',' :: (renderItem v ++ (sepTail (vs.map renderItem) ++ close :: rest)) := by
        simp [sepTail]
      rw [hshape, parseSepRest.eq_def]
      simp only [if_neg hclose, eq_self_iff_true, if_true]
      split
      · rename_i v1 r1 heq1
        rw [hround] at heq1
        obtain ⟨rfl, rfl⟩ : v = v1 ∧ sepTail (vs.map renderItem) ++ close :: rest = r1 := by
          simpa using heq1
        rw [ih rest]
      · rename_i heq1
        rw [hround] at heq1
        exact absurd heq1 (by simp)

theorem parseSepList_render {α : Type}
    (item : List Char → Option (α × List Char))
    (hitem : ∀ cs v r, item cs = some (v, r) → r.length < cs.length)
    (close : Char) (renderItem : α → List Char)
    (hround : ∀ v rest, item (renderItem v ++ rest) = some (v, rest))
    (hclose : ¬(',' : Char) = close)
    (hstart : ∀ v, ∃ c t, renderItem v = c :: t ∧ ¬c = close) :
    ∀ vs rest,
      parseSepList item hitem close (commaSep (vs.map renderItem) ++ close :: rest) =
        some (vs, rest) := by
  intro vs rest
  cases vs with
  | nil =>
      rw [parseSepList.eq_def]
      simp [commaSep]
  | cons v vs =>
      obtain ⟨c, t, hct, hne⟩ := hstart v
      have hshape : commaSep ((v :: vs).map renderItem) ++ close :: rest =
          c :: (t ++ (sepTail (vs.map renderItem) ++ close :: rest)) := by
        simp [commaSep, hct]
      rw [hshape, parseSepList.eq_def]
      simp only [if_neg hne]
      have hitemeq : item (c :: (t ++ (sepTail (vs.map renderItem) ++ close :: rest))) =
          some (v, sepTail (vs.map renderItem) ++ close :: rest) := by
        have : c :: (t ++ (sepTail (vs.map renderItem) ++ close :: rest)) =
            renderItem v ++ (sepTail (vs.map renderItem) ++ close :: rest) := by
          simp [hct]
        rw [this, hround]
      rw [hitemeq]
      have hrest := parseSepRest_render item hitem close renderItem hround hclose vs rest
      simp [hrest]

theorem renderScalar_start (v : Scalar) :
    ∃ c t, renderScalar v = c :: t ∧ ¬c = ']' ∧ ¬c = '[' := by
  cases v with
  | s str =>
      exact ⟨'"', escapeChars str.data ++ ['"'], by simp [renderScalar, renderString],
        by decide, by decide⟩
  | b bv => cases bv with
      | true => exact ⟨'t', ['r', 'u', 'e'], rfl, by decide, by decide⟩
      | false => exact ⟨'f', ['a', 'l', 's', 'e'], rfl, by decide, by decide⟩
  | null => exact ⟨'n', ['u', 'l', 'l'], rfl, by decide, by decide⟩

theorem parseFieldValue_of_scalar (c : Char) (t : List Char)
    (hne : ¬c = '[') (v : Scalar) (r : List Char)
    (h : parseScalar (c :: t) = some (v, r)) :
    parseFieldValue (c :: t) = some (.scalar v, r) := by
  rw [parseFieldValue.eq_def]
  split
  · rename_i rest heq
    rw [List.cons.injEq] at heq
    exact absurd heq.1 hne
  · rw [h]

theorem parseFieldValue_render (v : FieldValue) (rest : List Char) :
    parseFieldValue (renderFieldValue v ++ rest) = some (v, rest) := by
  cases v with
  | scalar sv =>
      obtain ⟨c, t, hct, _hne1, hne2⟩ := renderScalar_start sv
      have hshape : renderFieldValue (.scalar sv) ++ rest = c :: (t ++ rest) := by
        simp [renderFieldValue, hct]
      have hps : parseScalar (c :: (t ++ rest)) = some (sv, rest) := by
        have h1 : c :: (t ++ rest) = renderScalar sv ++ rest := by simp [hct]
        rw [h1, parseScalar_render]
      rw [hshape]
      exact parseFieldValue_of_scalar c (t ++ rest) hne2 sv rest hps
  | list vs =>
      have hshape : renderFieldValue (.list vs) ++ rest =
          '[' :: (commaSep (vs.map renderScalar) ++ ']' :: rest) := by
        simp [renderFieldValue]
      rw [hshape, parseFieldValue.eq_def]
      have hl := parseSepList_render parseScalar parseScalar_length ']' renderScalar
        parseScalar_render (by decide)
        (fun v => by obtain ⟨c, t, hct, hne, _⟩ := renderScalar_start v; exact ⟨c, t, hct, hne⟩)
        vs rest
      simp [hl]

theorem parseField_render (p : String × FieldValue) (rest : List Char) :
    parseField (renderField p ++ rest) = some (p, rest) := by
  obtain ⟨n, v⟩ := p
  have hshape : renderField (n, v) ++ rest =
      '"' :: (escapeChars n.data ++ '"' :: (':' :: (renderFieldValue v ++ rest))) := by
    simp [renderField, renderString]
  rw [hshape, parseField.eq_def]
  have hs := parseStrBody_escape n.data (':' :: (renderFieldValue v ++ rest))
  have hv := parseFieldValue_render v rest
  simp [hs, hv, stringMk_data]

theorem renderField_start (p : String × FieldValue) :
    ∃ c t, renderField p = c :: t ∧ ¬c = closeBraceChar := by
  exact ⟨'"', escapeChars p.1.data ++ '"' :: (':' :: renderFieldValue p.2),
    by simp [renderField, renderString], by decide⟩

theorem parseRecord_render (r : Record) (rest : List Char) :
    parseRecord (renderRecord r ++ rest) = some (r, rest) := by
  have hshape : renderRecord r ++ rest =
      openBraceChar :: (commaSep (r.map renderField) ++ closeBraceChar :: rest) := by
    simp [renderRecord]
  rw [hshape, parseRecord.eq_def]
  simp only [eq_self_iff_true, if_true]
  exact parseSepList_render parseField parseField_length closeBraceChar renderField
    parseField_render (by decide) renderField_start r rest

theorem renderRecord_start (r : Record) :
    ∃ c t, renderRecord r = c :: t ∧ ¬c = ']' := by
  exact ⟨openBraceChar, commaSep (r.map renderField) ++ [closeBraceChar],
    by simp [renderRecord], by decide⟩

theorem parseResultSet_render (rs : List Record) :
    parseResultSet (renderResultSet rs) = some rs := by
  have hshape : renderResultSet rs =
      '[' :: (commaSep (rs.map renderRecord) ++ ']' :: []) := by
    simp [renderResultSet]
  rw [hshape, parseResultSet.eq_def]
  have hl := parseSepList_render parseRecord parseRecord_length ']' renderRecord
    parseRecord_render (by decide) renderRecord_start rs []
  simp [hl]


theorem lookup_map_field {β : Type} (g : FieldSpec → β) :
    ∀ (l : List FieldSpec) (f : FieldSpec), (l.map FieldSpec.name).Nodup → f ∈ l →
      (l.map (fun x => (x.name, g x))).lookup f.name = some (g f) := by
  intro l
  induction l with
  | nil => intro f _ hf; simp at hf
  | cons a l ih =>
      intro f hnodup hf
      have hsplit : (∀ x ∈ l, ¬x.name = a.name) ∧ (l.map FieldSpec.name).Nodup := by
        simpa using hnodup
      rcases List.mem_cons.mp hf with rfl | hf2
      · simp [List.lookup]
      · have hne : (f.name == a.name) = false :=
          beq_eq_false_iff_ne.mpr (hsplit.1 f hf2)
        have htail := ih f hsplit.2 hf2
        simp only [List.map_cons, List.lookup]
        simp [hne, htail]

theorem lookup_extractRecord (m : Matcher) (s : Schema) (base : Node)
    (f : FieldSpec) (hnodup : (s.fields.map FieldSpec.name).Nodup)
    (hf : f ∈ s.fields) :
    (extractRecord m s base).lookup f.name = some (extractField m base f) :=
  lookup_map_field (extractField m base) s.fields f hnodup hf

theorem validateSchema_nodup (s : Schema) (hv : validateSchema s = none) :
    (s.fields.map FieldSpec.name).Nodup := by
  by_contra h
  unfold validateSchema at hv
  rw [if_pos h] at hv
  exact Option.noConfusion hv

theorem validateSchema_malformed (s : Schema) (hmal : malformedSchema s) :
    ∃ e, validateSchema s = some e := by
  unfold validateSchema
  by_cases hn : (s.fields.map FieldSpec.name).Nodup
  · rw [if_neg (by simpa using hn)]
    rcases hmal with h | ⟨f, hf, hattr, hopt⟩
    · exact absurd hn h
    · have hany : s.fields.any fieldConfigBad = true := by
        apply List.any_eq_true.mpr
        refine ⟨f, hf, ?_⟩
        unfold fieldConfigBad
        rcases hopt with h0 | h0 <;> simp [hattr, h0]
      rw [if_pos hany]
      exact ⟨_, rfl⟩
  · rw [if_pos hn]
    exact ⟨_, rfl⟩

/-- C1: for every schema and document, `extract` returns a ResultSet with
exactly one Record per element matched by `baseSelector`, in document order
(the i-th Record is extracted from the i-th matched base element), whenever
the schema passes validation (a malformed schema is a configuration error
instead; see C3). -/
theorem extract_one_record_per_base (m : Matcher) (root : Node) (s : Schema)
    (hv : validateSchema s = none) :
    extract m root s = .ok ((baseElems m root s).map (extractRecord m s)) ∧
      ∀ rs, extract m root s = .ok rs →
        rs.length = (baseElems m root s).length := by
  constructor
  · unfold extract
    rw [hv]
  · intro rs hrs
    unfold extract at hrs
    rw [hv] at hrs
    have : (baseElems m root s).map (extractRecord m s) = rs := by
      exact Except.ok.inj hrs
    rw [← this, List.length_map]

/-- C1 witness: a two-element document where both elements match the base
selector yields exactly two records, in document order. -/
theorem extract_one_record_per_base_witness :
    validateSchema ⟨"S", "card", [⟨"t", "", .text, none, false⟩]⟩ = none ∧
      extract (fun _ _ => true)
          (.mk [] "root" [.mk [] "a" [], .mk [] "b" []])
          ⟨"S", "card", [⟨"t", "", .text, none, false⟩]⟩ =
        .ok [[("t", .scalar (.s "root"))],
             [("t", .scalar (.s "a"))],
             [("t", .scalar (.s "b"))]] := by
  refine ⟨by decide, ?_⟩
  have h := extract_one_record_per_base (fun _ _ => true)
    (.mk [] "root" [.mk [] "a" [], .mk [] "b" []])
    ⟨"S", "card", [⟨"t", "", .text, none, false⟩]⟩ (by decide)
  rw [h.1]
  rfl

/-- C2: for a `type=exists` field of a validated schema, the value stored in
every emitted Record under the field's name is a boolean that is `true` iff
the field's resolved selector matches at least one element within the base
element — whatever the field's `multiple` flag is. -/
theorem exists_field_iff_match (m : Matcher) (s : Schema) (base : Node)
    (f : FieldSpec) (hv : validateSchema s = none) (hf : f ∈ s.fields)
    (ht : f.ftype = .exists_) :
    ∃ bv, (extractRecord m s base).lookup f.name = some (.scalar (.b bv)) ∧
      (bv = true ↔ resolveTargets m base f.selector ≠ []) := by
  have hl := lookup_extractRecord m s base f (validateSchema_nodup s hv) hf
  refine ⟨!(resolveTargets m base f.selector).isEmpty, ?_, ?_⟩
  · rw [hl]
    unfold extractField
    rw [ht]
  · simp [List.isEmpty_iff]

/-- C2 witness: a `sponsored`-style exists field with `multiple=true`, on a
base element with no matching descendant, stores the boolean false. -/
theorem exists_field_iff_match_witness :
    validateSchema ⟨"S", "b", [⟨"sp", "lbl", .exists_, none, true⟩]⟩ = none ∧
      (⟨"sp", "lbl", .exists_, none, true⟩ : FieldSpec) ∈
        [(⟨"sp", "lbl", .exists_, none, true⟩ : FieldSpec)] ∧
      ∃ bv, (extractRecord (fun _ _ => false)
          ⟨"S", "b", [⟨"sp", "lbl", .exists_, none, true⟩]⟩
          (.mk [] "x" [])).lookup "sp" = some (.scalar (.b bv)) ∧
        (bv = true ↔ resolveTargets (fun _ _ => false) (.mk [] "x" []) "lbl" ≠ []) :=
  ⟨by decide, by decide,
    exists_field_iff_match (fun _ _ => false)
      ⟨"S", "b", [⟨"sp", "lbl", .exists_, none, true⟩]⟩ (.mk [] "x" [])
      ⟨"sp", "lbl", .exists_, none, true⟩ (by decide) (by decide) rfl⟩

/-- C3: a malformed schema (duplicate field name, or attribute-type field
with no non-empty attribute name) is rejected before extraction: `extract`
returns a configuration error, for every matcher and document, and never a
result set. -/
theorem malformed_schema_rejected (s : Schema) (hmal : malformedSchema s) :
    ∀ (m : Matcher) (root : Node),
      (∃ e, extract m root s = .error e) ∧ ∀ rs, extract m root s ≠ .ok rs := by
  intro m root
  obtain ⟨e, he⟩ := validateSchema_malformed s hmal
  refine ⟨⟨e, ?_⟩, ?_⟩
  · unfold extract
    rw [he]
  · intro rs hok
    unfold extract at hok
    rw [he] at hok
    exact Except.noConfusion hok

/-- C3 witness: the `asin` field of the schema in `src/main.py` (an
attribute-type field with no attribute name) makes the whole schema
malformed, and extraction on any document is refused with an error. -/
theorem malformed_schema_rejected_witness :
    malformedSchema ⟨"Amazon Product Search Results",
        "[data-component-type='s-search-result']",
        [⟨"asin", "", .attr, none, false⟩]⟩ ∧
      ∃ e, extract (fun _ _ => true) (.mk [] "" [])
          ⟨"Amazon Product Search Results",
            "[data-component-type='s-search-result']",
            [⟨"asin", "", .attr, none, false⟩]⟩ = .error e :=
  ⟨Or.inr ⟨⟨"asin", "", .attr, none, false⟩, by decide, rfl, Or.inl rfl⟩,
    (malformed_schema_rejected ⟨"Amazon Product Search Results",
        "[data-component-type='s-search-result']",
        [⟨"asin", "", .attr, none, false⟩]⟩
      (Or.inr ⟨⟨"asin", "", .attr, none, false⟩, by decide, rfl, Or.inl rfl⟩)
      (fun _ _ => true) (.mk [] "" [])).1⟩

/-- C4: for a `multiple=true` field of type text or attribute in a
validated schema, every emitted Record stores an ordered sequence whose
length equals the number of matched target elements (zero included). -/
theorem multiple_field_length (m : Matcher) (s : Schema) (base : Node)
    (f : FieldSpec) (hv : validateSchema s = none) (hf : f ∈ s.fields)
    (hm : f.multiple = true) (ht : f.ftype = .text ∨ f.ftype = .attr) :
    ∃ vs, (extractRecord m s base).lookup f.name = some (.list vs) ∧
      vs.length = (resolveTargets m base f.selector).length := by
  have hl := lookup_extractRecord m s base f (validateSchema_nodup s hv) hf
  rcases ht with ht | ht
  · refine ⟨(resolveTargets m base f.selector).map textScalar, ?_, by simp⟩
    rw [hl]
    unfold extractField
    rw [ht]
    simp [hm]
  · refine ⟨(resolveTargets m base f.selector).map
      (fun e => attrScalar e (f.attrName.getD "")), ?_, by simp⟩
    rw [hl]
    unfold extractField
    rw [ht]
    simp [hm]

/-- C4 witness: the `delivery_info`-style multiple text field over a base
element with two matching descendants yields a list of length two. -/
theorem multiple_field_length_witness :
    validateSchema ⟨"S", "b", [⟨"d", "i", .text, none, true⟩]⟩ = none ∧
      ∃ vs, (extractRecord (fun _ _ => true)
          ⟨"S", "b", [⟨"d", "i", .text, none, true⟩]⟩
          (.mk [] "x" [.mk [] "p" [], .mk [] "q" []])).lookup "d" =
            some (.list vs) ∧
        vs.length = (resolveTargets (fun _ _ => true)
          (.mk [] "x" [.mk [] "p" [], .mk [] "q" []]) "i").length :=
  ⟨by decide,
    multiple_field_length (fun _ _ => true)
      ⟨"S", "b", [⟨"d", "i", .text, none, true⟩]⟩
      (.mk [] "x" [.mk [] "p" [], .mk [] "q" []])
      ⟨"d", "i", .text, none, true⟩ (by decide) (by decide) rfl (Or.inl rfl)⟩

/-- C5: a field with the empty selector always resolves to the singleton
containing the base element itself — never a sibling, ancestor or
descendant — for every matcher and base element. -/
theorem empty_selector_is_base (m : Matcher) (base : Node) :
    resolveTargets m base "" = [base] := by
  unfold resolveTargets
  rw [if_pos rfl]

/-- C6: for a validated schema, a non-exists field whose selector matches
nothing gets a null/empty placeholder, while the Record is still emitted
with a value for every declared field and extraction as a whole still
succeeds. -/
theorem missing_field_nonfatal (m : Matcher) (root : Node) (s : Schema)
    (f : FieldSpec) (base : Node) (hv : validateSchema s = none)
    (hf : f ∈ s.fields) (hne : ¬f.ftype = .exists_)
    (hmiss : resolveTargets m base f.selector = []) :
    (∃ rs, extract m root s = .ok rs) ∧
      ((extractRecord m s base).lookup f.name = some (.scalar (.s "")) ∨
       (extractRecord m s base).lookup f.name = some (.scalar .null) ∨
       (extractRecord m s base).lookup f.name = some (.list [])) ∧
      (∀ g ∈ s.fields,
        (extractRecord m s base).lookup g.name = some (extractField m base g)) ∧
      (extractRecord m s base).length = s.fields.length := by
  have hnodup := validateSchema_nodup s hv
  refine ⟨⟨_, by unfold extract; rw [hv]⟩, ?_, ?_, ?_⟩
  · have hl := lookup_extractRecord m s base f hnodup hf
    rw [hl]
    unfold extractField
    cases ht : f.ftype with
    | exists_ => exact absurd ht hne
    | text =>
        cases hm : f.multiple with
        | true => simp [hmiss]
        | false => simp [hmiss]
    | attr =>
        cases hm : f.multiple with
        | true => simp [hmiss]
        | false => simp [hmiss]
  · intro g hg
    exact lookup_extractRecord m s base g hnodup hg
  · unfold extractRecord
    rw [List.length_map]

/-- C6 witness: a text field whose selector matches nothing in a leaf base
element yields the empty-string placeholder while the record keeps both
fields and extraction succeeds. -/
theorem missing_field_nonfatal_witness :
    validateSchema ⟨"S", "b", [⟨"t", "x", .text, none, false⟩,
        ⟨"e", "x", .exists_, none, false⟩]⟩ = none ∧
      resolveTargets (fun _ _ => true) (.mk [] "p" []) "x" = [] ∧
      ((∃ rs, extract (fun _ _ => true) (.mk [] "p" [])
          ⟨"S", "b", [⟨"t", "x", .text, none, false⟩,
            ⟨"e", "x", .exists_, none, false⟩]⟩ = .ok rs) ∧
        ((extractRecord (fun _ _ => true)
            ⟨"S", "b", [⟨"t", "x", .text, none, false⟩,
              ⟨"e", "x", .exists_, none, false⟩]⟩
            (.mk [] "p" [])).lookup "t" = some (.scalar (.s "")) ∨
         (extractRecord (fun _ _ => true)
            ⟨"S", "b", [⟨"t", "x", .text, none, false⟩,
              ⟨"e", "x", .exists_, none, false⟩]⟩
            (.mk [] "p" [])).lookup "t" = some (.scalar .null) ∨
         (extractRecord (fun _ _ => true)
            ⟨"S", "b", [⟨"t", "x", .text, none, false⟩,
              ⟨"e", "x", .exists_, none, false⟩]⟩
            (.mk [] "p" [])).lookup "t" = some (.list [])) ∧
        (∀ g ∈ (⟨"S", "b", [⟨"t", "x", .text, none, false⟩,
            ⟨"e", "x", .exists_, none, false⟩]⟩ : Schema).fields,
          (extractRecord (fun _ _ => true)
            ⟨"S", "b", [⟨"t", "x", .text, none, false⟩,
              ⟨"e", "x", .exists_, none, false⟩]⟩
            (.mk [] "p" [])).lookup g.name =
              some (extractField (fun _ _ => true) (.mk [] "p" []) g)) ∧
        (extractRecord (fun _ _ => true)
          ⟨"S", "b", [⟨"t", "x", .text, none, false⟩,
            ⟨"e", "x", .exists_, none, false⟩]⟩
          (.mk [] "p" [])).length =
            (⟨"S", "b", [⟨"t", "x", .text, none, false⟩,
              ⟨"e", "x", .exists_, none, false⟩]⟩ : Schema).fields.length) :=
  ⟨by decide, rfl,
    missing_field_nonfatal (fun _ _ => true) (.mk [] "p" [])
      ⟨"S", "b", [⟨"t", "x", .text, none, false⟩,
        ⟨"e", "x", .exists_, none, false⟩]⟩
      ⟨"t", "x", .text, none, false⟩ (.mk [] "p" [])
      (by decide) (by decide) (by decide) rfl⟩

/-- C7: every ResultSet produced by extraction, serialized to a JSON array
and parsed back, yields field-for-field equal Records (round-trip
identity). -/
theorem resultset_roundtrip (m : Matcher) (root : Node) (s : Schema)
    (rs : List Record) (h : extract m root s = .ok rs) :
    parseResultSet (renderResultSet rs) = some rs :=
  parseResultSet_render rs

/-- C7 witness: round trip of the ResultSet extracted from a one-element
document, including a string value that needs escaping. -/
theorem resultset_roundtrip_witness :
    extract (fun _ _ => true) (.mk [("id", "a\"b\\c")] " hi " [])
        ⟨"S", "b", [⟨"i", "", .attr, some "id", false⟩,
          ⟨"t", "", .text, none, false⟩]⟩ =
      .ok [[("i", .scalar (.s "a\"b\\c")), ("t", .scalar (.s "hi"))]] ∧
    parseResultSet (renderResultSet
        [[("i", .scalar (.s "a\"b\\c")), ("t", .scalar (.s "hi"))]]) =
      some [[("i", .scalar (.s "a\"b\\c")), ("t", .scalar (.s "hi"))]] :=
  ⟨rfl,
    resultset_roundtrip (fun _ _ => true) (.mk [("id", "a\"b\\c")] " hi " [])
      ⟨"S", "b", [⟨"i", "", .attr, some "id", false⟩,
        ⟨"t", "", .text, none, false⟩]⟩
      [[("i", .scalar (.s "a\"b\\c")), ("t", .scalar (.s "hi"))]] rfl⟩

theorem string_data_append (a b : String) : (a ++ b).data = a.data ++ b.data :=
  rfl

/-- C8 counterexample: with an empty extracted payload — which is not
parseable as structured text — `extract_structured_data_using_llm` performs
no parse attempt and reports no parse error: the returned writes are only
the four fixed ones, none of which carries the parse-error marker.  The
claim as stated (every unparseable payload surfaces an error) is therefore
false at this input. -/
theorem llm_empty_payload_error_unsurfaced :
    ("" ++ "\n") ∈ llmWrites "ollama/llama3.2:1b" "" none
        "Expecting value: line 1 column 1 (char 0)" ∧
      ¬ reportsParseError (llmWrites "ollama/llama3.2:1b" "" none
        "Expecting value: line 1 column 1 (char 0)") := by
  constructor
  · decide
  · rintro ⟨w, hw, tail, ht⟩
    have hw' : w = "\n--- Extracting Structured Data with ollama/llama3.2:1b ---\n" ∨
        w = "Extraction strategy initialized\n" ∨
        w = "\n=== Raw Extracted Content ===\n" ∨
        w = "" ++ "\n" := by
      simpa [llmWrites] using hw
    have htake : w.data.take ("\n!!! JSON Parsing Error: ".data.length) =
        "\n!!! JSON Parsing Error: ".data := by
      rw [ht]
      exact List.take_left _ _
    rcases hw' with rfl | rfl | rfl | rfl <;> revert htake <;> decide

/-- C8 amended: whenever the extracted payload is non-empty and cannot be
parsed as valid structured text, the parse failure is surfaced in the
returned output (a decode-error write) and the raw extracted payload is
still returned alongside it. -/
theorem llm_parse_error_surfaced (provider content errMsg : String)
    (hc : ¬content = "") :
    reportsParseError (llmWrites provider content none errMsg) ∧
      (content ++ "\n") ∈ llmWrites provider content none errMsg := by
  constructor
  · refine ⟨jsonErrorWrite errMsg, ?_, errMsg.data ++ " !!!\n".data, ?_⟩
    · simp [llmWrites, hc]
    · unfold jsonErrorWrite
      rw [string_data_append, string_data_append, List.append_assoc]
  · simp [llmWrites, hc]

/-- C8 amended witness: a concrete non-empty unparseable payload. -/
theorem llm_parse_error_surfaced_witness :
    ¬("not json" : String) = "" ∧
      (reportsParseError (llmWrites "openai/gpt-4o" "not json" none
          "Expecting value: line 1 column 1 (char 0)") ∧
        ("not json" ++ "\n") ∈ llmWrites "openai/gpt-4o" "not json" none
          "Expecting value: line 1 column 1 (char 0)") :=
  ⟨by decide,
    llm_parse_error_surfaced "openai/gpt-4o" "not json"
      "Expecting value: line 1 column 1 (char 0)" (by decide)⟩

/-- C9: the consumer scripts print `Sponsored: Yes` iff the record's
`sponsored` value is present and truthy, and `Sponsored: No` otherwise; in
particular a record without the key prints `No` (via `dict.get`, without
raising). -/
theorem sponsored_line_yes_iff (p : Record) :
    (sponsoredLine p = "Sponsored: Yes" ↔
      ∃ v, pyGet p "sponsored" = some v ∧ truthy (some v) = true) ∧
    (sponsoredLine p ≠ "Sponsored: Yes" → sponsoredLine p = "Sponsored: No") ∧
    (pyGet p "sponsored" = none → sponsoredLine p = "Sponsored: No") := by
  refine ⟨?_, ?_, ?_⟩
  · unfold sponsoredLine
    cases hg : pyGet p "sponsored" with
    | none =>
        rw [show truthy none = false from rfl]
        simp
    | some v =>
        cases htv : truthy (some v) with
        | true => simp [htv, hg]
        | false => simp [htv, hg]
  · unfold sponsoredLine
    cases truthy (pyGet p "sponsored") with
    | true => simp
    | false => simp
  · intro hg
    unfold sponsoredLine
    rw [hg]
    rfl

/-- C9 witness: the empty record (no `sponsored` key) prints `No`. -/
theorem sponsored_line_yes_iff_witness :
    sponsoredLine [] = "Sponsored: No" :=
  (sponsored_line_yes_iff []).2.2 rfl

/-- C10: when the crawl result is falsy or its `extracted_content` is falsy
(absent or empty), the consumer prints no product output and returns
normally — JSON parsing is skipped entirely, so the outcome is the same for
every parse function, including a failing one. -/
theorem falsy_result_prints_nothing (r : Option CrawlResult)
    (h : r = none ∨ ∃ cr, r = some cr ∧ contentTruthy cr.extracted_content = false) :
    ∀ parse, processResult r parse = some [] := by
  intro parse
  rcases h with rfl | ⟨cr, rfl, hct⟩
  · rfl
  · cases hec : cr.extracted_content with
    | none => simp [processResult, hec]
    | some c =>
        rw [hec] at hct
        have hc : c = "" := by
          by_contra hne
          simp [contentTruthy, hne] at hct
        subst hc
        simp [processResult, hec]

/-- C10 witness: a crawl result holding the empty string prints nothing,
even for a parse function that always fails. -/
theorem falsy_result_prints_nothing_witness :
    contentTruthy (CrawlResult.mk (some "")).extracted_content = false ∧
      processResult (some (CrawlResult.mk (some ""))) (fun _ => none) = some [] :=
  ⟨rfl,
    falsy_result_prints_nothing (some (CrawlResult.mk (some "")))
      (Or.inr ⟨CrawlResult.mk (some ""), rfl, rfl⟩) (fun _ => none)⟩
